import Mathlib

/-
Verification of the ragujuary reconciliation core: a shallow embedding of
the Go sources (internal/store/manager.go, internal/gemini/uploader.go,
internal/gemini/client.go boundary, internal/fileutil, internal/mcp/handlers.go,
cmd/fetch.go, cmd/sync.go) together with proofs of the testable properties
of the specification.

Modelling conventions:
- Go byte slices are List Nat (each element a byte value).
- Go maps are association lists (List (String × α)); map assignment replaces
  the first binding of the key or appends a fresh one; map deletion removes
  the key.  Go map iteration order is immaterial to the proved statements.
- time.Time instants are Nat (nanoseconds since the epoch); the textual form
  produced by the Go time boundary (RFC3339Nano) is modelled by an injective
  decimal rendering with a parser inverse, which is exactly the property the
  catalog round trip relies on.
- Remote gateway calls (internal/gemini/client.go) are recorded in a call
  trace; their outcomes are supplied by an explicit Gateway structure of
  response functions, matching the boundary contract of the spec.
-/

set_option maxRecDepth 4096

namespace Ragu

/-! ### Decimal digits

Executable decimal rendering and parsing with a proved inverse.  This stands
in for the Go boundary conversions: time.Time formatting/parsing on the
catalog file (RFC3339Nano round-trips an instant exactly; we model the
instant's textual form injectively), and fmt.Sscanf with a %d verb used by
cmd/fetch.go on the sizeBytes field. -/

def digitChar (d : Nat) : Char :=
  Char.ofNat (48 + d)

def charDigit (c : Char) : Option Nat :=
  if 48 ≤ c.toNat ∧ c.toNat ≤ 57 then some (c.toNat - 48) else none

theorem charDigit_digitChar (d : Nat) (h : d < 10) :
    charDigit (digitChar d) = some d := by
  interval_cases d <;> rfl

/-- Little-endian digit list of n, with explicit fuel for structural recursion. -/
def digitsRev (fuel n : Nat) : List Nat :=
  match fuel with
  | 0 => []
  | fuel + 1 => if n < 10 then [n] else n % 10 :: digitsRev fuel (n / 10)

def undigitsRev : List Nat → Nat
  | [] => 0
  | d :: ds => d + 10 * undigitsRev ds

theorem digitsRev_ne_nil (fuel n : Nat) : digitsRev (fuel + 1) n ≠ [] := by
  unfold digitsRev
  split <;> simp

theorem digitsRev_lt_ten (fuel n : Nat) (h : n < fuel) :
    ∀ d ∈ digitsRev fuel n, d < 10 := by
  induction fuel generalizing n with
  | zero => omega
  | succ fuel ih =>
    intro d hd
    unfold digitsRev at hd
    split at hd
    · simp at hd; omega
    · rcases List.mem_cons.mp hd with h1 | h2
      · omega
      · exact ih (n / 10) (by omega) d h2

theorem undigitsRev_digitsRev (fuel n : Nat) (h : n < fuel) :
    undigitsRev (digitsRev fuel n) = n := by
  induction fuel generalizing n with
  | zero => omega
  | succ fuel ih =>
    unfold digitsRev
    split
    · simp [undigitsRev]
    · have hdiv : n / 10 < n := Nat.div_lt_self (by omega) (by omega)
      rw [undigitsRev, ih (n / 10) (by omega)]
      omega

/-! ### Hex encoding (encoding/hex.EncodeToString) -/

def hexDigit (d : Nat) : Char :=
  if d < 10 then Char.ofNat (48 + d) else Char.ofNat (87 + d)

/-- hex.EncodeToString: two lowercase hex digits per byte. -/
def hexEncodeToString (bytes : List Nat) : String :=
  ⟨bytes.flatMap (fun b => [hexDigit (b / 16 % 16), hexDigit (b % 16)])⟩

/-! ### SHA-256 (crypto/sha256, the content hash of fileutil.CalculateChecksum)

Executable word-level SHA-256 over byte lists, 32-bit words as Nat with
explicit masking.  fileutil.CalculateChecksum streams a file through this
hash and hex-encodes the digest with no further decoration; the MCP upload
handler hashes the inline content and prepends a "sha256:" tag. -/

def w32 (n : Nat) : Nat := n % 4294967296

def rotr32 (k x : Nat) : Nat := w32 ((x >>> k) ||| (x <<< (32 - k)))

def sigB0 (x : Nat) : Nat := rotr32 2 x ^^^ rotr32 13 x ^^^ rotr32 22 x

def sigB1 (x : Nat) : Nat := rotr32 6 x ^^^ rotr32 11 x ^^^ rotr32 25 x

def sigS0 (x : Nat) : Nat := rotr32 7 x ^^^ rotr32 18 x ^^^ (x >>> 3)

def sigS1 (x : Nat) : Nat := rotr32 17 x ^^^ rotr32 19 x ^^^ (x >>> 10)

def chFn (x y z : Nat) : Nat := (x &&& y) ^^^ ((4294967295 ^^^ x) &&& z)

def majFn (x y z : Nat) : Nat := (x &&& y) ^^^ (x &&& z) ^^^ (y &&& z)

def sha256K : List Nat :=
  [1116352408, 1899447441, 3049323471, 3921009573, 961987163,
   1508970993, 2453635748, 2870763221, 3624381080, 310598401,
   607225278, 1426881987, 1925078388, 2162078206, 2614888103,
   3248222580, 3835390401, 4022224774, 264347078, 604807628,
   770255983, 1249150122, 1555081692, 1996064986, 2554220882,
   2821834349, 2952996808, 3210313671, 3336571891, 3584528711,
   113926993, 338241895, 666307205, 773529912, 1294757372,
   1396182291, 1695183700, 1986661051, 2177026350, 2456956037,
   2730485921, 2820302411, 3259730800, 3345764771, 3516065817,
   3600352804, 4094571909, 275423344, 430227734, 506948616,
   659060556, 883997877, 958139571, 1322822218, 1537002063,
   1747873779, 1955562222, 2024104815, 2227730452, 2361852424,
   2428436474, 2756734187, 3204031479, 3329325298]

def sha256H0 : List Nat :=
  [1779033703, 3144134277, 1013904242, 2773480762,
   1359893119, 2600822924, 528734635, 1541459225]

def lenBytes64 (n : Nat) : List Nat :=
  [n >>> 56 % 256, n >>> 48 % 256, n >>> 40 % 256, n >>> 32 % 256,
   n >>> 24 % 256, n >>> 16 % 256, n >>> 8 % 256, n % 256]

def sha256pad (msg : List Nat) : List Nat :=
  let len := msg.length
  let zeros := (55 + 64 - len % 64) % 64
  msg ++ 0x80 :: List.replicate zeros 0 ++ lenBytes64 (8 * len)

def bytesToWords : List Nat → List Nat
  | b0 :: b1 :: b2 :: b3 :: rest =>
      ((b0 <<< 24) ||| (b1 <<< 16) ||| (b2 <<< 8) ||| b3) :: bytesToWords rest
  | _ => []

def chunk16 : Nat → List Nat → List (List Nat)
  | 0, _ => []
  | _, [] => []
  | fuel + 1, ws => ws.take 16 :: chunk16 fuel (ws.drop 16)

def scheduleStep (w : List Nat) : List Nat :=
  let n := w.length
  w ++ [w32 (sigS1 (w.getD (n - 2) 0) + w.getD (n - 7) 0 +
             sigS0 (w.getD (n - 15) 0) + w.getD (n - 16) 0)]

def extendSchedule : Nat → List Nat → List Nat
  | 0, w => w
  | k + 1, w => extendSchedule k (scheduleStep w)

structure Hash8 where
  a : Nat
  b : Nat
  c : Nat
  d : Nat
  e : Nat
  f : Nat
  g : Nat
  h : Nat

def compressStep (wSched : List Nat) (s : Hash8) (i : Nat) : Hash8 :=
  let t1 := w32 (s.h + sigB1 s.e + chFn s.e s.f s.g + sha256K.getD i 0 + wSched.getD i 0)
  let t2 := w32 (sigB0 s.a + majFn s.a s.b s.c)
  ⟨w32 (t1 + t2), s.a, s.b, s.c, w32 (s.d + t1), s.e, s.f, s.g⟩

def compressBlock (hs : List Nat) (block : List Nat) : List Nat :=
  let wSched := extendSchedule 48 block
  let s0 : Hash8 := ⟨hs.getD 0 0, hs.getD 1 0, hs.getD 2 0, hs.getD 3 0,
                     hs.getD 4 0, hs.getD 5 0, hs.getD 6 0, hs.getD 7 0⟩
  let s := (List.range 64).foldl (compressStep wSched) s0
  [w32 (hs.getD 0 0 + s.a), w32 (hs.getD 1 0 + s.b), w32 (hs.getD 2 0 + s.c),
   w32 (hs.getD 3 0 + s.d), w32 (hs.getD 4 0 + s.e), w32 (hs.getD 5 0 + s.f),
   w32 (hs.getD 6 0 + s.g), w32 (hs.getD 7 0 + s.h)]

def wordBytes (w : Nat) : List Nat :=
  [w >>> 24 % 256, w >>> 16 % 256, w >>> 8 % 256, w % 256]

def sha256 (msg : List Nat) : List Nat :=
  let ws := bytesToWords (sha256pad msg)
  ((chunk16 ws.length ws).foldl compressBlock sha256H0).flatMap wordBytes

/-- fileutil.CalculateChecksum, taken at the level of the file's bytes:
hex-encoded SHA-256 of the exact content, with no algorithm tag. -/
def calculateChecksum (content : List Nat) : String :=
  hexEncodeToString (sha256 content)

/-- The checksum computed by the MCP upload handler (internal/mcp/handlers.go):
SHA-256 of the inline content, hex-encoded, with a "sha256:" tag in front. -/
def mcpUploadChecksum (content : List Nat) : String :=
  "sha256:" ++ hexEncodeToString (sha256 content)

/-! ### Data model (internal/store: FileMetadata, Store, StoreData)

Go maps become association lists; assignment replaces the first binding or
appends, deletion drops the key.  Timestamps are Nat instants. -/

structure FileMetadata where
  localPath : String
  remoteID : String
  remoteName : String
  checksum : String
  size : Int
  uploadedAt : Nat
  mimeType : String
deriving DecidableEq

structure Store where
  name : String
  createdAt : Nat
  updatedAt : Nat
  files : List (String × FileMetadata)
deriving DecidableEq

structure StoreData where
  stores : List (String × Store)
deriving DecidableEq

def lookupA {α : Type} (k : String) : List (String × α) → Option α
  | [] => none
  | (k', v) :: rest => if k' = k then some v else lookupA k rest

def setA {α : Type} (k : String) (v : α) : List (String × α) → List (String × α)
  | [] => [(k, v)]
  | (k', v') :: rest => if k' = k then (k, v) :: rest else (k', v') :: setA k v rest

def removeA {α : Type} (k : String) : List (String × α) → List (String × α)
  | [] => []
  | (k', v') :: rest => if k' = k then removeA k rest else (k', v') :: removeA k rest

theorem lookupA_setA_self {α : Type} (k : String) (v : α) (l : List (String × α)) :
    lookupA k (setA k v l) = some v := by
  induction l with
  | nil => simp [setA, lookupA]
  | cons hd tl ih =>
    obtain ⟨k', v'⟩ := hd
    by_cases h : k' = k <;> simp [setA, lookupA, h, ih]

theorem lookupA_setA_ne {α : Type} (k q : String) (v : α) (l : List (String × α))
    (h : q ≠ k) : lookupA q (setA k v l) = lookupA q l := by
  have hk : ¬(k = q) := fun hh => h hh.symm
  induction l with
  | nil => simp [setA, lookupA, hk]
  | cons hd tl ih =>
    obtain ⟨k', v'⟩ := hd
    by_cases hkk : k' = k
    · subst hkk
      simp [setA, lookupA, hk]
    · by_cases hq : k' = q <;> simp [setA, lookupA, hkk, hq, h, ih]

theorem lookupA_removeA_self {α : Type} (k : String) (l : List (String × α)) :
    lookupA k (removeA k l) = none := by
  induction l with
  | nil => simp [removeA, lookupA]
  | cons hd tl ih =>
    obtain ⟨k', v'⟩ := hd
    by_cases h : k' = k <;> simp [removeA, lookupA, h, ih]

theorem lookupA_removeA_ne {α : Type} (k q : String) (l : List (String × α))
    (h : q ≠ k) : lookupA q (removeA k l) = lookupA q l := by
  have hk : ¬(k = q) := fun hh => h hh.symm
  induction l with
  | nil => simp [removeA]
  | cons hd tl ih =>
    obtain ⟨k', v'⟩ := hd
    by_cases hkk : k' = k
    · subst hkk
      simp [removeA, lookupA, hk, ih]
    · by_cases hq : k' = q <;> simp [removeA, lookupA, hkk, hq, h, ih]

/-! ### Store manager operations (internal/store/manager.go) -/

namespace Manager

/-- Manager.GetFileByPath: look the store up by name, then the record by path. -/
def getFileByPath (d : StoreData) (storeName localPath : String) : Option FileMetadata :=
  match lookupA storeName d.stores with
  | none => none
  | some st => lookupA localPath st.files

/-- Manager.AddFile: get or lazily create the store, upsert the record by its
LocalPath, bump UpdatedAt. -/
def addFile (d : StoreData) (storeName : String) (meta : FileMetadata) (now : Nat) : StoreData :=
  match lookupA storeName d.stores with
  | none =>
      { stores := setA storeName
          { name := storeName, createdAt := now, updatedAt := now,
            files := [(meta.localPath, meta)] } d.stores }
  | some st =>
      { stores := setA storeName
          { st with files := setA meta.localPath meta st.files, updatedAt := now } d.stores }

/-- Manager.RemoveFile: delete the record if present; report whether it was. -/
def removeFile (d : StoreData) (storeName localPath : String) (now : Nat) : StoreData × Bool :=
  match lookupA storeName d.stores with
  | none => (d, false)
  | some st =>
      match lookupA localPath st.files with
      | none => (d, false)
      | some _ =>
          ({ stores := setA storeName
              { st with files := removeA localPath st.files, updatedAt := now } d.stores },
           true)

/-- Manager.GetStore. -/
def getStore (d : StoreData) (storeName : String) : Option Store :=
  lookupA storeName d.stores

/-- Manager.GetAllFiles: every record of the store, in map order. -/
def getAllFiles (d : StoreData) (storeName : String) : List FileMetadata :=
  match lookupA storeName d.stores with
  | none => []
  | some st => st.files.map Prod.snd

/-- Manager.GetOrCreateStore, restricted to its effect on the catalog. -/
def getOrCreateStore (d : StoreData) (name : String) (now : Nat) : StoreData :=
  match lookupA name d.stores with
  | some _ => d
  | none =>
      { stores := setA name
          { name := name, createdAt := now, updatedAt := now, files := [] } d.stores }

theorem getFileByPath_addFile_self (d : StoreData) (s : String) (m : FileMetadata) (now : Nat) :
    getFileByPath (addFile d s m now) s m.localPath = some m := by
  unfold getFileByPath addFile
  cases h : lookupA s d.stores <;>
    simp [h, lookupA_setA_self, lookupA]

theorem getFileByPath_addFile_ne (d : StoreData) (s : String) (m : FileMetadata)
    (now : Nat) (q : String) (hq : q ≠ m.localPath) :
    getFileByPath (addFile d s m now) s q = getFileByPath d s q := by
  unfold getFileByPath addFile
  cases h : lookupA s d.stores with
  | none => simp [h, lookupA_setA_self, lookupA, Ne.symm hq]
  | some st => simp [h, lookupA_setA_self, lookupA_setA_ne _ _ _ _ hq]

end Manager

/-! ### Uploader construction (internal/gemini/uploader.go, NewUploader) -/

/-- NewUploader's pool-size rule: arguments below 1 fall back to the default 5. -/
def newUploaderParallelism (parallelism : Int) : Int :=
  if parallelism < 1 then 5 else parallelism

/-! ### Upload pipeline (internal/gemini/uploader.go, uploadFile)

The remote gateway (internal/gemini/client.go) is a boundary: its responses
are supplied by a Gateway structure of functions, and every remote call the
pipeline issues is recorded in a call trace.  The delete of a stale document
is best effort: its outcome is ignored by the source, so only the call is
recorded.  Reading the file is modelled by a disk map from path to content
bytes; fileutil.CalculateChecksum of a path is calculateChecksum of those
bytes. -/

structure FileInfo where
  path : String
  size : Int
  checksum : String
  mimeType : String
deriving DecidableEq

inductive RemoteCall where
  | deleteDocument (id : String)
  | uploadToStore (storeName path displayName : String)
  | pollOperation (opName : String)
deriving DecidableEq

/-- A long-running operation as the pipeline sees it.  responseDocName models
json.Unmarshal of the response body into a FileSearchDocument: some n means
the body parsed and carried document name n; none covers an empty body or a
parse failure. -/
structure Operation where
  name : String
  done : Bool
  responseDocName : Option String
deriving DecidableEq

structure Gateway where
  deleteDocument : String → Bool
  uploadToFileSearchStore : String → String → Except String Operation
  waitForOperation : String → Except String Operation

structure UploadResult where
  fileInfo : FileInfo
  metadata : Option FileMetadata
  error : Option String
  skipped : Bool
  reason : String
deriving DecidableEq

/-- Document-name extraction after the operation finishes: the parsed
response name when the operation is done and the name is non-empty,
otherwise the operation name as a fallback. -/
def opDocumentName (op : Operation) : String :=
  if op.done then
    match op.responseDocName with
    | some n => if n ≠ "" then n else op.name
    | none => op.name
  else op.name

/-- The fresh FileMetadata committed after a successful upload. -/
def uploadedMeta (file : FileInfo) (checksum : String) (op : Operation) (now : Nat) :
    FileMetadata :=
  { localPath := file.path, remoteID := opDocumentName op, remoteName := file.path,
    checksum := checksum, size := file.size, uploadedAt := now, mimeType := file.mimeType }

/-- Steps 5-8 of uploadFile: issue the upload, optionally wait for the
operation, extract the document name, commit the fresh record. -/
def uploadFileRemote (gw : Gateway) (d : StoreData) (storeName : String)
    (waitForDone : Bool) (now : Nat) (file : FileInfo) (checksum : String)
    (preCalls : List RemoteCall) : UploadResult × StoreData × List RemoteCall :=
  match gw.uploadToFileSearchStore storeName file.path with
  | .error _ =>
      ({ fileInfo := file, metadata := none, error := some "failed to upload",
         skipped := false, reason := "" }, d,
       preCalls ++ [RemoteCall.uploadToStore storeName file.path file.path])
  | .ok op0 =>
      let upCalls := preCalls ++ [RemoteCall.uploadToStore storeName file.path file.path]
      if waitForDone && !op0.done then
        match gw.waitForOperation op0.name with
        | .error _ =>
            ({ fileInfo := file, metadata := none, error := some "upload operation failed",
               skipped := false, reason := "" }, d,
             upCalls ++ [RemoteCall.pollOperation op0.name])
        | .ok op =>
            let meta := uploadedMeta file checksum op now
            ({ fileInfo := file, metadata := some meta, error := none,
               skipped := false, reason := "" },
             Manager.addFile d storeName meta now,
             upCalls ++ [RemoteCall.pollOperation op0.name])
      else
        let meta := uploadedMeta file checksum op0 now
        ({ fileInfo := file, metadata := some meta, error := none,
           skipped := false, reason := "" },
         Manager.addFile d storeName meta now, upCalls)

/-- uploadFile (internal/gemini/uploader.go): checksum, dedup lookup,
best-effort delete of the stale document, upload, commit. -/
def uploadFile (gw : Gateway) (disk : String → Option (List Nat)) (d : StoreData)
    (storeName : String) (waitForDone : Bool) (now : Nat) (file : FileInfo) :
    UploadResult × StoreData × List RemoteCall :=
  match disk file.path with
  | none =>
      ({ fileInfo := file, metadata := none, error := some "failed to calculate checksum",
         skipped := false, reason := "" }, d, [])
  | some content =>
      let checksum := calculateChecksum content
      let file' := { file with checksum := checksum }
      -- the checksum update leaves file.Path untouched
      match Manager.getFileByPath d storeName file.path with
      | some existing =>
          if existing.checksum = checksum then
            ({ fileInfo := file', metadata := some existing, error := none,
               skipped := true, reason := "file unchanged (same checksum)" }, d, [])
          else
            uploadFileRemote gw d storeName waitForDone now file' checksum
              (if existing.remoteID ≠ "" then [RemoteCall.deleteDocument existing.remoteID] else [])
      | none => uploadFileRemote gw d storeName waitForDone now file' checksum []

def countUploadCalls : List RemoteCall → Nat
  | [] => 0
  | RemoteCall.uploadToStore _ _ _ :: rest => countUploadCalls rest + 1
  | _ :: rest => countUploadCalls rest

theorem uploadFileRemote_commit (gw : Gateway) (d : StoreData) (s : String)
    (now : Nat) (file : FileInfo) (checksum : String) (preCalls : List RemoteCall)
    (op : Operation) (hup : gw.uploadToFileSearchStore s file.path = .ok op)
    (hdone : op.done = true) :
    uploadFileRemote gw d s true now file checksum preCalls =
      ({ fileInfo := file, metadata := some (uploadedMeta file checksum op now),
         error := none, skipped := false, reason := "" },
       Manager.addFile d s (uploadedMeta file checksum op now) now,
       preCalls ++ [RemoteCall.uploadToStore s file.path file.path]) := by
  unfold uploadFileRemote
  rw [hup]
  simp [hdone]

theorem uploadFile_skip_of_matching (gw : Gateway) (disk : String → Option (List Nat))
    (d : StoreData) (s : String) (now : Nat) (file : FileInfo) (content : List Nat)
    (m : FileMetadata) (hdisk : disk file.path = some content)
    (hfound : Manager.getFileByPath d s file.path = some m)
    (hsum : m.checksum = calculateChecksum content) :
    uploadFile gw disk d s true now file =
      ({ fileInfo := { file with checksum := calculateChecksum content },
         metadata := some m, error := none, skipped := true,
         reason := "file unchanged (same checksum)" }, d, []) := by
  unfold uploadFile
  rw [hdisk]
  simp only []
  rw [hfound]
  simp [hsum]

theorem countUploadCalls_append (l1 l2 : List RemoteCall) :
    countUploadCalls (l1 ++ l2) = countUploadCalls l1 + countUploadCalls l2 := by
  induction l1 with
  | nil => simp [countUploadCalls]
  | cons hd tl ih =>
    cases hd <;> simp [countUploadCalls, ih]
    omega

/-- Unchanged wrt the record: uploadFile takes the full remote path,
with the best-effort delete list determined by the existing record. -/
theorem uploadFile_stale_unfold (gw : Gateway) (disk : String → Option (List Nat))
    (d : StoreData) (s : String) (now : Nat) (file : FileInfo) (content : List Nat)
    (hdisk : disk file.path = some content)
    (hstale : ∀ m', Manager.getFileByPath d s file.path = some m' →
        m'.checksum ≠ calculateChecksum content) :
    uploadFile gw disk d s true now file =
      uploadFileRemote gw d s true now { file with checksum := calculateChecksum content }
        (calculateChecksum content)
        (match Manager.getFileByPath d s file.path with
         | some m => if m.remoteID ≠ "" then [RemoteCall.deleteDocument m.remoteID] else []
         | none => []) := by
  unfold uploadFile
  rw [hdisk]
  simp only []
  cases hm : Manager.getFileByPath d s file.path with
  | none => simp
  | some m => simp [hstale m hm]

/-- C10: NewUploader's worker-pool size is the given parallelism when it is
at least 1 and the default 5 when it is zero or negative, so the pool always
has at least one worker. -/
theorem newUploaderParallelism_floor (p : Int) :
    1 ≤ newUploaderParallelism p ∧
    (1 ≤ p → newUploaderParallelism p = p) ∧
    (p < 1 → newUploaderParallelism p = 5) := by
  unfold newUploaderParallelism
  refine ⟨?_, ?_, ?_⟩
  · split <;> omega
  · intro h
    rw [if_neg (by omega)]
  · intro h
    rw [if_pos h]

theorem newUploaderParallelism_floor_witness :
    1 ≤ newUploaderParallelism 0 ∧ newUploaderParallelism 0 = 5 ∧
    newUploaderParallelism 7 = 7 :=
  ⟨(newUploaderParallelism_floor 0).1,
   (newUploaderParallelism_floor 0).2.2 (by decide),
   (newUploaderParallelism_floor 7).2.1 (by decide)⟩

/-- C1: for a file whose fresh checksum differs from any cached record (in
particular a file never uploaded before), a successful first invocation of
the upload pipeline issues exactly one upload call; a second invocation on
the unchanged content issues zero remote calls, is reported skipped with
reason "file unchanged (same checksum)", reuses the metadata record the
first invocation committed, and leaves the catalog untouched. -/
theorem second_upload_of_unchanged_file_is_skipped
    (gw : Gateway) (disk : String → Option (List Nat)) (d : StoreData)
    (s : String) (now now' : Nat) (file : FileInfo) (content : List Nat)
    (op : Operation)
    (hdisk : disk file.path = some content)
    (hstale : ∀ m, Manager.getFileByPath d s file.path = some m →
        m.checksum ≠ calculateChecksum content)
    (hup : gw.uploadToFileSearchStore s file.path = .ok op)
    (hdone : op.done = true) :
    countUploadCalls (uploadFile gw disk d s true now file).2.2 = 1 ∧
    uploadFile gw disk (uploadFile gw disk d s true now file).2.1 s true now' file =
      ({ fileInfo := { file with checksum := calculateChecksum content },
         metadata := (uploadFile gw disk d s true now file).1.metadata,
         error := none, skipped := true,
         reason := "file unchanged (same checksum)" },
       (uploadFile gw disk d s true now file).2.1, []) := by
  have h1 := uploadFile_stale_unfold gw disk d s now file content hdisk hstale
  have hcommit := uploadFileRemote_commit gw d s now
      { file with checksum := calculateChecksum content } (calculateChecksum content)
      (match Manager.getFileByPath d s file.path with
       | some m => if m.remoteID ≠ "" then [RemoteCall.deleteDocument m.remoteID] else []
       | none => []) op hup hdone
  rw [hcommit] at h1
  constructor
  · rw [h1]
    simp only [countUploadCalls_append]
    cases hm : Manager.getFileByPath d s file.path with
    | none => simp [countUploadCalls]
    | some m =>
      by_cases hr : m.remoteID = "" <;> simp [hr, countUploadCalls]
  · rw [h1]
    simp only []
    exact uploadFile_skip_of_matching gw disk _ s now' file content _ hdisk
      (Manager.getFileByPath_addFile_self d s
        (uploadedMeta { file with checksum := calculateChecksum content }
          (calculateChecksum content) op now) now) rfl

/-- C2: for a path with an existing record of checksum C1 and non-empty
remote id R1, uploading changed content of checksum C2 issues exactly one
delete call for R1 followed by exactly one upload call, and the committed
record carries checksum C2 and the fresh remote id R2 returned by the
upload, distinct from R1 when the gateway issues fresh ids. -/
theorem changed_upload_deletes_then_uploads
    (gw : Gateway) (disk : String → Option (List Nat)) (d : StoreData)
    (s : String) (now : Nat) (file : FileInfo) (content : List Nat)
    (m : FileMetadata) (op : Operation) (r2 : String)
    (hfound : Manager.getFileByPath d s file.path = some m)
    (hrid : m.remoteID ≠ "")
    (hdisk : disk file.path = some content)
    (hchanged : m.checksum ≠ calculateChecksum content)
    (hup : gw.uploadToFileSearchStore s file.path = .ok op)
    (hdone : op.done = true)
    (hresp : op.responseDocName = some r2)
    (hr2 : r2 ≠ "")
    (hfresh : r2 ≠ m.remoteID) :
    (uploadFile gw disk d s true now file).2.2 =
      [RemoteCall.deleteDocument m.remoteID,
       RemoteCall.uploadToStore s file.path file.path] ∧
    (uploadFile gw disk d s true now file).1.error = none ∧
    ∃ meta, Manager.getFileByPath (uploadFile gw disk d s true now file).2.1 s file.path =
        some meta ∧
      meta.checksum = calculateChecksum content ∧
      meta.remoteID = r2 ∧ meta.remoteID ≠ m.remoteID := by
  have hstale : ∀ m', Manager.getFileByPath d s file.path = some m' →
      m'.checksum ≠ calculateChecksum content := by
    intro m' hm'
    rw [hfound] at hm'
    cases hm'
    exact hchanged
  have h1 := uploadFile_stale_unfold gw disk d s now file content hdisk hstale
  have hcommit := uploadFileRemote_commit gw d s now
      { file with checksum := calculateChecksum content } (calculateChecksum content)
      (match Manager.getFileByPath d s file.path with
       | some mm => if mm.remoteID ≠ "" then [RemoteCall.deleteDocument mm.remoteID] else []
       | none => []) op hup hdone
  rw [hcommit] at h1
  simp only [hfound] at h1
  rw [if_pos hrid] at h1
  have hname : opDocumentName op = r2 := by
    unfold opDocumentName
    rw [hdone, hresp]
    simp [hr2]
  refine ⟨by rw [h1]; rfl, by rw [h1], ?_⟩
  refine ⟨uploadedMeta { file with checksum := calculateChecksum content }
      (calculateChecksum content) op now, ?_, rfl, ?_, ?_⟩
  · rw [h1]
    exact Manager.getFileByPath_addFile_self d s _ now
  · exact hname
  · rw [show (uploadedMeta { file with checksum := calculateChecksum content }
        (calculateChecksum content) op now).remoteID = opDocumentName op from rfl, hname]
    exact hfresh

/-! Concrete fixtures used by the witnesses. -/

def opDemo : Operation :=
  { name := "operations/op1", done := true,
    responseDocName := some "fileSearchStores/st/documents/new1" }

def gwDemo : Gateway :=
  { deleteDocument := fun _ => true,
    uploadToFileSearchStore := fun _ _ => .ok opDemo,
    waitForOperation := fun _ => .ok opDemo }

def diskDemo : String → Option (List Nat) :=
  fun p => if p = "a.txt" then some [0] else none

def fileDemo : FileInfo :=
  { path := "a.txt", size := 1, checksum := "", mimeType := "text/plain" }

def mDemo : FileMetadata :=
  { localPath := "a.txt", remoteID := "fileSearchStores/st/documents/old1",
    remoteName := "a.txt", checksum := "stale", size := 1, uploadedAt := 3,
    mimeType := "text/plain" }

def dDemo : StoreData :=
  { stores := [("st", { name := "st", createdAt := 1, updatedAt := 2,
                        files := [("a.txt", mDemo)] })] }

theorem second_upload_of_unchanged_file_is_skipped_witness :
    countUploadCalls (uploadFile gwDemo diskDemo { stores := [] } "st" true 5 fileDemo).2.2 = 1 ∧
    uploadFile gwDemo diskDemo
        (uploadFile gwDemo diskDemo { stores := [] } "st" true 5 fileDemo).2.1 "st" true 6 fileDemo =
      ({ fileInfo := { fileDemo with checksum := calculateChecksum [0] },
         metadata := (uploadFile gwDemo diskDemo { stores := [] } "st" true 5 fileDemo).1.metadata,
         error := none, skipped := true,
         reason := "file unchanged (same checksum)" },
       (uploadFile gwDemo diskDemo { stores := [] } "st" true 5 fileDemo).2.1, []) :=
  second_upload_of_unchanged_file_is_skipped gwDemo diskDemo { stores := [] } "st" 5 6
    fileDemo [0] opDemo rfl
    (fun m hm => by simp [Manager.getFileByPath, lookupA] at hm) rfl rfl

theorem changed_upload_deletes_then_uploads_witness :
    (uploadFile gwDemo diskDemo dDemo "st" true 7 fileDemo).2.2 =
      [RemoteCall.deleteDocument "fileSearchStores/st/documents/old1",
       RemoteCall.uploadToStore "st" "a.txt" "a.txt"] ∧
    (uploadFile gwDemo diskDemo dDemo "st" true 7 fileDemo).1.error = none ∧
    ∃ meta, Manager.getFileByPath (uploadFile gwDemo diskDemo dDemo "st" true 7 fileDemo).2.1
        "st" "a.txt" = some meta ∧
      meta.checksum = calculateChecksum [0] ∧
      meta.remoteID = "fileSearchStores/st/documents/new1" ∧
      meta.remoteID ≠ "fileSearchStores/st/documents/old1" :=
  changed_upload_deletes_then_uploads gwDemo diskDemo dDemo "st" 7 fileDemo [0] mDemo opDemo
    "fileSearchStores/st/documents/new1" rfl (by decide) rfl (by decide) rfl rfl rfl
    (by decide) (by decide)

/-! ### Parallel batch upload (internal/gemini/uploader.go, UploadFiles)

UploadFiles feeds each index of the input slice through a jobs channel to a
pool of workers; every index is consumed by exactly one worker, and each
worker writes results at its own index.  The catalog operations inside
uploadFile (one lookup, one upsert, both of the file's own path) are atomic
under the manager's lock, and catalog updates for distinct paths commute, so
a concurrent execution is modelled by an arbitrary interleaving of the
per-file executions: a schedule is any permutation of the job indices, and
the pool size only selects which permutation occurs. -/

def runJobs (gw : Gateway) (disk : String → Option (List Nat)) (s : String)
    (waitForDone : Bool) (now : Nat) (files : List FileInfo) :
    List Nat → StoreData → List (Option UploadResult) →
      StoreData × List (Option UploadResult)
  | [], d, results => (d, results)
  | idx :: rest, d, results =>
      match files[idx]? with
      | none => runJobs gw disk s waitForDone now files rest d results
      | some f =>
          let step := uploadFile gw disk d s waitForDone now f
          runJobs gw disk s waitForDone now files rest step.2.1
            (results.set idx (some step.1))

theorem uploadFileRemote_frame (gw : Gateway) (d : StoreData) (s : String)
    (w : Bool) (now : Nat) (f : FileInfo) (checksum : String)
    (pre : List RemoteCall) (q : String) (hq : q ≠ f.path) :
    Manager.getFileByPath (uploadFileRemote gw d s w now f checksum pre).2.1 s q =
      Manager.getFileByPath d s q := by
  unfold uploadFileRemote
  cases gw.uploadToFileSearchStore s f.path with
  | error e => simp
  | ok op0 =>
    by_cases hw : w && !op0.done
    · simp only [hw, if_true]
      cases gw.waitForOperation op0.name with
      | error e => simp
      | ok op => simpa using Manager.getFileByPath_addFile_ne d s _ now q hq
    · simp only [hw, if_false]
      simpa using Manager.getFileByPath_addFile_ne d s _ now q hq

theorem uploadFile_frame (gw : Gateway) (disk : String → Option (List Nat))
    (d : StoreData) (s : String) (w : Bool) (now : Nat) (f : FileInfo)
    (q : String) (hq : q ≠ f.path) :
    Manager.getFileByPath (uploadFile gw disk d s w now f).2.1 s q =
      Manager.getFileByPath d s q := by
  unfold uploadFile
  cases disk f.path with
  | none => simp
  | some content =>
    simp only []
    cases Manager.getFileByPath d s f.path with
    | none => exact uploadFileRemote_frame gw d s w now _ _ _ q hq
    | some existing =>
      by_cases hsum : existing.checksum = calculateChecksum content
      · simp [hsum]
      · simp only [hsum, if_false]
        exact uploadFileRemote_frame gw d s w now _ _ _ q hq

theorem uploadFileRemote_result_congr (gw : Gateway) (d d' : StoreData) (s : String)
    (w : Bool) (now : Nat) (f : FileInfo) (checksum : String) (pre : List RemoteCall) :
    (uploadFileRemote gw d s w now f checksum pre).1 =
      (uploadFileRemote gw d' s w now f checksum pre).1 := by
  unfold uploadFileRemote
  cases gw.uploadToFileSearchStore s f.path with
  | error e => simp
  | ok op0 =>
    by_cases hw : w && !op0.done
    · simp only [hw, if_true]
      cases gw.waitForOperation op0.name with
      | error e => simp
      | ok op => simp
    · simp [hw]

/-- The per-file outcome depends on the catalog only through the record at
the file's own path. -/
theorem uploadFile_result_congr (gw : Gateway) (disk : String → Option (List Nat))
    (d d' : StoreData) (s : String) (w : Bool) (now : Nat) (f : FileInfo)
    (h : Manager.getFileByPath d s f.path = Manager.getFileByPath d' s f.path) :
    (uploadFile gw disk d s w now f).1 = (uploadFile gw disk d' s w now f).1 := by
  unfold uploadFile
  cases disk f.path with
  | none => simp
  | some content =>
    simp only []
    rw [h]
    cases Manager.getFileByPath d' s f.path with
    | none => exact uploadFileRemote_result_congr gw d d' s w now _ _ _
    | some existing =>
      by_cases hsum : existing.checksum = calculateChecksum content
      · simp [hsum]
      · simp only [hsum, if_false]
        exact uploadFileRemote_result_congr gw d d' s w now _ _ _

theorem runJobs_length (gw : Gateway) (disk : String → Option (List Nat)) (s : String)
    (w : Bool) (now : Nat) (files : List FileInfo) :
    ∀ (order : List Nat) (d : StoreData) (results : List (Option UploadResult)),
      (runJobs gw disk s w now files order d results).2.length = results.length := by
  intro order
  induction order with
  | nil => intro d results; rfl
  | cons idx rest ih =>
    intro d results
    unfold runJobs
    cases files[idx]? with
    | none => exact ih d results
    | some f => simp [ih]

theorem runJobs_untouched (gw : Gateway) (disk : String → Option (List Nat)) (s : String)
    (w : Bool) (now : Nat) (files : List FileInfo) :
    ∀ (order : List Nat) (d : StoreData) (results : List (Option UploadResult))
      (k : Nat), k ∉ order →
      ((runJobs gw disk s w now files order d results).2)[k]? = results[k]? := by
  intro order
  induction order with
  | nil => intro d results k _; rfl
  | cons idx rest ih =>
    intro d results k hk
    have hkidx : k ≠ idx := fun h => hk (h ▸ List.mem_cons_self idx rest)
    have hkrest : k ∉ rest := fun h => hk (List.mem_cons_of_mem idx h)
    unfold runJobs
    cases files[idx]? with
    | none => exact ih d results k hkrest
    | some f =>
      simp only []
      rw [ih _ _ k hkrest]
      exact List.getElem?_set_ne (fun h => hkidx h.symm)

theorem runJobs_processed (gw : Gateway) (disk : String → Option (List Nat)) (s : String)
    (w : Bool) (now : Nat) (files : List FileInfo) (d0 : StoreData) :
    ∀ (order : List Nat) (d : StoreData) (results : List (Option UploadResult)),
      order.Nodup →
      results.length = files.length →
      (∀ i ∈ order, ∀ f, files[i]? = some f →
          Manager.getFileByPath d s f.path = Manager.getFileByPath d0 s f.path) →
      (∀ i ∈ order, ∀ j ∈ order, i ≠ j → ∀ fi fj, files[i]? = some fi →
          files[j]? = some fj → fi.path ≠ fj.path) →
      ∀ k, k ∈ order → ∀ f, files[k]? = some f →
        ((runJobs gw disk s w now files order d results).2)[k]? =
          some (some ((uploadFile gw disk d0 s w now f).1)) := by
  intro order
  induction order with
  | nil =>
    intro d results _ _ _ _ k hk
    exact absurd hk (List.not_mem_nil k)
  | cons idx rest ih =>
    intro d results hnd hlen hagree hdistinct k hk f hf
    have hidxrest : idx ∉ rest := (List.nodup_cons.mp hnd).1
    have hndrest : rest.Nodup := (List.nodup_cons.mp hnd).2
    rcases List.mem_cons.mp hk with hkidx | hkrest
    · subst hkidx
      unfold runJobs
      rw [hf]
      simp only []
      rw [runJobs_untouched gw disk s w now files rest _ _ k hidxrest]
      have hres : (uploadFile gw disk d s w now f).1 = (uploadFile gw disk d0 s w now f).1 :=
        uploadFile_result_congr gw disk d d0 s w now f
          (hagree k (List.mem_cons_self k rest) f hf)
      have hklt : k < results.length := by
        rw [hlen]
        exact (List.getElem?_eq_some.mp hf).1
      rw [List.getElem?_set_eq_of_lt _ hklt, hres]
    · unfold runJobs
      cases hfi : files[idx]? with
      | none =>
        refine ih d results hndrest hlen ?_ ?_ k hkrest f hf
        · intro i hi g hg
          exact hagree i (List.mem_cons_of_mem idx hi) g hg
        · intro i hi j hj hij fi fj hfi' hfj'
          exact hdistinct i (List.mem_cons_of_mem idx hi) j (List.mem_cons_of_mem idx hj)
            hij fi fj hfi' hfj'
      | some fidx =>
        simp only []
        refine ih _ _ hndrest (by simp [hlen]) ?_ ?_ k hkrest f hf
        · intro i hi g hg
          have hine : i ≠ idx := fun h => hidxrest (h ▸ hi)
          have hpne : g.path ≠ fidx.path :=
            hdistinct i (List.mem_cons_of_mem idx hi) idx (List.mem_cons_self idx rest)
              hine g fidx hg hfi
          rw [uploadFile_frame gw disk d s w now fidx g.path hpne]
          exact hagree i (List.mem_cons_of_mem idx hi) g hg
        · intro i hi j hj hij fi fj hfi' hfj'
          exact hdistinct i (List.mem_cons_of_mem idx hi) j (List.mem_cons_of_mem idx hj)
            hij fi fj hfi' hfj'

/-- C9: processing N input files with pairwise distinct local paths under any
schedule of the worker pool (any permutation of the job indices, the pool
size only selecting which one occurs) produces exactly N results, the entry
at each index being the outcome of that input file computed against the
initial catalog — the same for every schedule, hence for every pool size. -/
theorem upload_outcomes_schedule_invariant (gw : Gateway)
    (disk : String → Option (List Nat)) (s : String) (w : Bool) (now : Nat)
    (files : List FileInfo) (d0 : StoreData) (order : List Nat)
    (hperm : order.Perm (List.range files.length))
    (hpaths : (files.map (fun f => f.path)).Nodup) :
    (runJobs gw disk s w now files order d0 (List.replicate files.length none)).2 =
      files.map (fun f => some ((uploadFile gw disk d0 s w now f).1)) := by
  have hnd : order.Nodup := hperm.nodup_iff.mpr (List.nodup_range _)
  have hmem : ∀ k, k ∈ order ↔ k < files.length := by
    intro k
    rw [hperm.mem_iff, List.mem_range]
  have hdist : ∀ i ∈ order, ∀ j ∈ order, i ≠ j → ∀ fi fj, files[i]? = some fi →
      files[j]? = some fj → fi.path ≠ fj.path := by
    intro i hi j hj hij fi fj hfi hfj hpeq
    have hi' : i < files.length := (hmem i).mp hi
    have hj' : j < files.length := (hmem j).mp hj
    obtain ⟨_, hfi'⟩ := List.getElem?_eq_some.mp hfi
    obtain ⟨_, hfj'⟩ := List.getElem?_eq_some.mp hfj
    apply hij
    have hi'' : i < (files.map (fun f => f.path)).length := by simpa
    have hj'' : j < (files.map (fun f => f.path)).length := by simpa
    have hmap : (files.map (fun f => f.path)).get ⟨i, hi''⟩ =
        (files.map (fun f => f.path)).get ⟨j, hj''⟩ := by
      simp only [List.get_eq_getElem, List.getElem_map]
      rw [hfi', hfj', hpeq]
    exact congrArg Fin.val ((hpaths.get_inj_iff).mp hmap)
  apply List.ext_get?_iff.mpr
  intro k
  simp only [List.get?_eq_getElem?]
  by_cases hk : k < files.length
  · have hf : files[k]? = some files[k] := List.getElem?_eq_getElem hk
    rw [runJobs_processed gw disk s w now files d0 order d0
          (List.replicate files.length none) hnd (by simp)
          (fun i _ g _ => rfl) hdist k ((hmem k).mpr hk) files[k] hf]
    rw [List.getElem?_map, hf]
    rfl
  · have h1 : (runJobs gw disk s w now files order d0
        (List.replicate files.length none)).2.length = files.length := by
      rw [runJobs_length]
      simp
    rw [List.getElem?_eq_none (by rw [h1]; omega),
        List.getElem?_eq_none (by rw [List.length_map]; omega)]


def filesDemo : List FileInfo :=
  [{ path := "a.txt", size := 1, checksum := "", mimeType := "text/plain" },
   { path := "b.txt", size := 1, checksum := "", mimeType := "text/plain" }]

theorem upload_outcomes_schedule_invariant_witness :
    (runJobs gwDemo diskDemo "st" true 5 filesDemo [1, 0] { stores := [] }
        (List.replicate filesDemo.length none)).2 =
      filesDemo.map
        (fun f => some ((uploadFile gwDemo diskDemo { stores := [] } "st" true 5 f).1)) :=
  upload_outcomes_schedule_invariant gwDemo diskDemo "st" true 5 filesDemo
    { stores := [] } [1, 0] (by decide) (by decide)

/-! ### File discovery (internal/fileutil, DiscoverFiles)

A filesystem is a tree of entries; filepath.Walk visits a directory before
its contents and filepath.SkipDir prunes the directory's whole subtree.
Exclusion patterns are modelled as their compiled matchers (String → Bool);
the claims quantify over valid regular expressions, and an invalid pattern
makes DiscoverFiles fail before any walking.  The forest type keeps the
recursion structural so the walk evaluates inside the kernel. -/

mutual

inductive FSEntry where
  | file (path : String) (size : Int)
  | dir (path : String) (children : FSForest)

inductive FSForest where
  | nil
  | cons (t : FSEntry) (ts : FSForest)

end

def rootPath : FSEntry → String
  | .file p _ => p
  | .dir p _ => p

def matchesAny (excl : List (String → Bool)) (path : String) : Bool :=
  excl.any (fun re => re path)

/-- filepath.Ext: the suffix beginning at the final dot in the final
path element, empty when there is none. -/
def extGo : List Char → List Char → String
  | [], _ => ""
  | c :: rest, acc =>
      if c = '/' then ""
      else if c = '.' then ⟨'.' :: acc⟩
      else extGo rest (c :: acc)

def extOf (path : String) : String :=
  extGo path.data.reverse []

/-- detectMimeType (internal/fileutil): static extension table, generic
binary fallback. -/
def detectMimeType (path : String) : String :=
  match extOf path with
  | ".txt" => "text/plain"
  | ".md" => "text/markdown"
  | ".html" => "text/html"
  | ".htm" => "text/html"
  | ".css" => "text/css"
  | ".js" => "text/javascript"
  | ".ts" => "text/typescript"
  | ".json" => "application/json"
  | ".xml" => "application/xml"
  | ".yaml" => "application/x-yaml"
  | ".yml" => "application/x-yaml"
  | ".go" => "text/x-go"
  | ".py" => "text/x-python"
  | ".java" => "text/x-java"
  | ".c" => "text/x-c"
  | ".cpp" => "text/x-c++"
  | ".h" => "text/x-c"
  | ".hpp" => "text/x-c++"
  | ".rs" => "text/x-rust"
  | ".rb" => "text/x-ruby"
  | ".php" => "text/x-php"
  | ".sh" => "text/x-shellscript"
  | ".pdf" => "application/pdf"
  | ".doc" => "application/msword"
  | ".docx" => "application/vnd.openxmlformats-officedocument.wordprocessingml.document"
  | ".csv" => "text/csv"
  | _ => "application/octet-stream"

mutual

/-- The walk callback of DiscoverFiles on one entry: an excluded directory
is pruned whole (filepath.SkipDir), an excluded file is skipped, any other
file yields a descriptor with its size and advisory MIME type. -/
def walkTree (excl : List (String → Bool)) : FSEntry → List FileInfo
  | .file p sz =>
      if matchesAny excl p then []
      else [{ path := p, size := sz, checksum := "", mimeType := detectMimeType p }]
  | .dir p cs => if matchesAny excl p then [] else walkForest excl cs

def walkForest (excl : List (String → Bool)) : FSForest → List FileInfo
  | .nil => []
  | .cons t ts => walkTree excl t ++ walkForest excl ts

end

/-- DiscoverFiles over the forest of (readable) root directories, with the
exclusion patterns already compiled. -/
def discoverFiles (excl : List (String → Bool)) (roots : FSForest) : List FileInfo :=
  walkForest excl roots

mutual

def filePathsT : FSEntry → List String
  | .file p _ => [p]
  | .dir _ cs => filePathsF cs

def filePathsF : FSForest → List String
  | .nil => []
  | .cons t ts => filePathsT t ++ filePathsF ts

end

mutual

inductive SubtreeT : FSEntry → FSEntry → Prop where
  | refl (t : FSEntry) : SubtreeT t t
  | inDir (d : FSEntry) (p : String) (cs : FSForest) :
      SubtreeF d cs → SubtreeT d (.dir p cs)

inductive SubtreeF : FSEntry → FSForest → Prop where
  | head (d t : FSEntry) (ts : FSForest) : SubtreeT d t → SubtreeF d (.cons t ts)
  | tail (d t : FSEntry) (ts : FSForest) : SubtreeF d ts → SubtreeF d (.cons t ts)

end

mutual

theorem walkTree_not_matching (excl : List (String → Bool)) :
    ∀ (t : FSEntry), ∀ fi ∈ walkTree excl t, matchesAny excl fi.path = false
  | .file p sz => by
      intro fi hfi
      by_cases h : matchesAny excl p
      · simp [walkTree, h] at hfi
      · rw [walkTree, if_neg h] at hfi
        have : fi = { path := p, size := sz, checksum := "", mimeType := detectMimeType p } := by
          simpa using hfi
        subst this
        simpa using h
  | .dir p cs => by
      intro fi hfi
      by_cases h : matchesAny excl p
      · simp [walkTree, h] at hfi
      · rw [walkTree, if_neg h] at hfi
        exact walkForest_not_matching excl cs fi hfi

theorem walkForest_not_matching (excl : List (String → Bool)) :
    ∀ (cs : FSForest), ∀ fi ∈ walkForest excl cs, matchesAny excl fi.path = false
  | .nil => by
      intro fi hfi
      simp [walkForest] at hfi
  | .cons t ts => by
      intro fi hfi
      rw [walkForest] at hfi
      rcases List.mem_append.mp hfi with h | h
      · exact walkTree_not_matching excl t fi h
      · exact walkForest_not_matching excl ts fi h

end

mutual

theorem walkTree_sub_paths (excl : List (String → Bool)) :
    ∀ (t : FSEntry), ∀ fi ∈ walkTree excl t, fi.path ∈ filePathsT t
  | .file p sz => by
      intro fi hfi
      by_cases h : matchesAny excl p
      · simp [walkTree, h] at hfi
      · rw [walkTree, if_neg h] at hfi
        have : fi = { path := p, size := sz, checksum := "", mimeType := detectMimeType p } := by
          simpa using hfi
        subst this
        simp [filePathsT]
  | .dir p cs => by
      intro fi hfi
      by_cases h : matchesAny excl p
      · simp [walkTree, h] at hfi
      · rw [walkTree, if_neg h] at hfi
        rw [filePathsT]
        exact walkForest_sub_paths excl cs fi hfi

theorem walkForest_sub_paths (excl : List (String → Bool)) :
    ∀ (cs : FSForest), ∀ fi ∈ walkForest excl cs, fi.path ∈ filePathsF cs
  | .nil => by
      intro fi hfi
      simp [walkForest] at hfi
  | .cons t ts => by
      intro fi hfi
      rw [walkForest] at hfi
      rw [filePathsF]
      rcases List.mem_append.mp hfi with h | h
      · exact List.mem_append.mpr (Or.inl (walkTree_sub_paths excl t fi h))
      · exact List.mem_append.mpr (Or.inr (walkForest_sub_paths excl ts fi h))

end

mutual

theorem subtreeT_paths : ∀ {d t : FSEntry}, SubtreeT d t →
    ∀ p ∈ filePathsT d, p ∈ filePathsT t
  | _, _, .refl _ => fun _ hp => hp
  | _, _, .inDir _ pth cs h => fun p hp => by
      rw [filePathsT]
      exact subtreeF_paths h p hp

theorem subtreeF_paths : ∀ {d : FSEntry} {cs : FSForest}, SubtreeF d cs →
    ∀ p ∈ filePathsT d, p ∈ filePathsF cs
  | _, _, .head _ t ts h => fun p hp => by
      rw [filePathsF]
      exact List.mem_append.mpr (Or.inl (subtreeT_paths h p hp))
  | _, _, .tail _ t ts h => fun p hp => by
      rw [filePathsF]
      exact List.mem_append.mpr (Or.inr (subtreeF_paths h p hp))

end

mutual

theorem walkTree_never_in_excluded (excl : List (String → Bool)) :
    ∀ (t : FSEntry) (fi : FileInfo) (d : FSEntry),
      (filePathsT t).Nodup → fi ∈ walkTree excl t → SubtreeT d t →
      matchesAny excl (rootPath d) = true → fi.path ∉ filePathsT d
  | .file p sz => by
      intro fi d hnd hfi hsub hm
      by_cases h : matchesAny excl p
      · simp [walkTree, h] at hfi
      · cases hsub with
        | refl => exact absurd hm (by simpa [rootPath] using h)
  | .dir p cs => by
      intro fi d hnd hfi hsub hm
      by_cases h : matchesAny excl p
      · simp [walkTree, h] at hfi
      · rw [walkTree, if_neg h] at hfi
        cases hsub with
        | refl => exact absurd hm (by simpa [rootPath] using h)
        | inDir _ _ hsubF =>
          have hnd' : (filePathsF cs).Nodup := by
            rw [filePathsT] at hnd
            exact hnd
          exact walkForest_never_in_excluded excl cs fi d hnd' hfi hsubF hm

theorem walkForest_never_in_excluded (excl : List (String → Bool)) :
    ∀ (cs : FSForest) (fi : FileInfo) (d : FSEntry),
      (filePathsF cs).Nodup → fi ∈ walkForest excl cs → SubtreeF d cs →
      matchesAny excl (rootPath d) = true → fi.path ∉ filePathsT d
  | .nil => by
      intro fi d _ hfi _ _
      simp [walkForest] at hfi
  | .cons t ts => by
      intro fi d hnd hfi hsub hm
      rw [walkForest] at hfi
      rw [filePathsF] at hnd
      obtain ⟨hnd1, hnd2, hdisj⟩ := List.nodup_append.mp hnd
      rcases List.mem_append.mp hfi with hft | hfts
      · cases hsub with
        | head _ _ hsT => exact walkTree_never_in_excluded excl t fi d hnd1 hft hsT hm
        | tail _ _ hsF =>
          intro hmem
          exact hdisj (walkTree_sub_paths excl t fi hft) (subtreeF_paths hsF fi.path hmem)
      · cases hsub with
        | head _ _ hsT =>
          intro hmem
          exact hdisj (subtreeT_paths hsT fi.path hmem) (walkForest_sub_paths excl ts fi hfts)
        | tail _ _ hsF => exact walkForest_never_in_excluded excl ts fi d hnd2 hfts hsF hm

end

/-- C6: when the full paths of a root forest are distinct (as they are on a
real filesystem), no descriptor yielded by discovery has a path matching any
exclusion pattern, and no file anywhere inside a directory whose own path
matches a pattern is discovered, because a matching directory is pruned
whole rather than descended into. -/
theorem discovery_respects_exclusions (excl : List (String → Bool)) (roots : FSForest)
    (fi : FileInfo) (d : FSEntry)
    (hnd : (filePathsF roots).Nodup)
    (hfi : fi ∈ discoverFiles excl roots)
    (hd : SubtreeF d roots)
    (hm : matchesAny excl (rootPath d) = true) :
    matchesAny excl fi.path = false ∧ fi.path ∉ filePathsT d :=
  ⟨walkForest_not_matching excl roots fi hfi,
   walkForest_never_in_excluded excl roots fi d hnd hfi hd hm⟩

def gitDirDemo : FSEntry :=
  .dir "/p/.git" (.cons (.file "/p/.git/objects/x" 3) .nil)

def rootsDemo : FSForest :=
  .cons (.dir "/p" (.cons gitDirDemo (.cons (.file "/p/a.txt" 1) .nil))) .nil

def exclDemo : List (String → Bool) :=
  [fun s => s = "/p/.git"]

theorem discovery_respects_exclusions_witness :
    matchesAny exclDemo "/p/a.txt" = false ∧ "/p/a.txt" ∉ filePathsT gitDirDemo :=
  discovery_respects_exclusions exclDemo rootsDemo
    { path := "/p/a.txt", size := 1, checksum := "", mimeType := "text/plain" }
    gitDirDemo (by decide) (by decide)
    (SubtreeF.head _ _ _
      (SubtreeT.inDir _ _ _ (SubtreeF.head _ _ _ (SubtreeT.refl gitDirDemo))))
    (by decide)

/-! ### Decimal strings and the time boundary -/

def natToString (n : Nat) : String :=
  ⟨((digitsRev (n + 1) n).map digitChar).reverse⟩

def parseRevChars : List Char → Option Nat
  | [] => none
  | c :: rest =>
      match charDigit c with
      | none => none
      | some d =>
          match rest with
          | [] => some d
          | _ :: _ =>
              match parseRevChars rest with
              | none => none
              | some m => some (d + 10 * m)

def parseNatString (s : String) : Option Nat :=
  parseRevChars s.data.reverse

/-- The Go time boundary: the textual form an instant takes in the catalog
file (RFC3339Nano in the source, which round-trips the instant exactly) is
modelled by the injective decimal rendering of the instant. -/
def timeToString (t : Nat) : String := natToString t

def parseTimeString (s : String) : Option Nat := parseNatString s

theorem parseRevChars_map (ds : List Nat) (hne : ds ≠ [])
    (hlt : ∀ d ∈ ds, d < 10) :
    parseRevChars (ds.map digitChar) = some (undigitsRev ds) := by
  induction ds with
  | nil => exact absurd rfl hne
  | cons d rest ih =>
    rw [List.map_cons, parseRevChars,
        charDigit_digitChar d (hlt d (List.mem_cons_self d rest))]
    cases rest with
    | nil => simp [undigitsRev]
    | cons r rs =>
      rw [List.map_cons]
      have := ih (by simp) (fun x hx => hlt x (List.mem_cons_of_mem d hx))
      rw [List.map_cons] at this
      rw [this]
      simp [undigitsRev]

theorem parseNatString_natToString (n : Nat) :
    parseNatString (natToString n) = some n := by
  unfold parseNatString natToString
  have hdata : (String.mk (((digitsRev (n + 1) n).map digitChar).reverse)).data =
      ((digitsRev (n + 1) n).map digitChar).reverse := rfl
  rw [hdata, List.reverse_reverse,
      parseRevChars_map (digitsRev (n + 1) n)
        (digitsRev_ne_nil n n)
        (digitsRev_lt_ten (n + 1) n (by omega)),
      undigitsRev_digitsRev (n + 1) n (by omega)]

theorem parseTimeString_timeToString (t : Nat) :
    parseTimeString (timeToString t) = some t :=
  parseNatString_natToString t

/-- C4 counterexample: on the empty content the upload pipeline's stored
checksum is the bare hex SHA-256 digest with no algorithm tag (the official
empty-input vector), while the MCP surface computes a "sha256:"-tagged
value; the two differ, refuting both the tagged-record-format part of the
claim and the cross-surface equality. -/
theorem checksum_format_counterexample :
    calculateChecksum [] ≠ mcpUploadChecksum [] ∧
    calculateChecksum [] =
      "e3b0c44298fc1c149afbf4c8996fb92427ae41e4649b934ca495991b7852b855" ∧
    mcpUploadChecksum [] =
      "sha256:e3b0c44298fc1c149afbf4c8996fb92427ae41e4649b934ca495991b7852b855" := by
  refine ⟨by decide, by decide, by decide⟩

/-- C4 (amended): both surfaces hash the exact content bytes with SHA-256
and hex-encode the digest; the upload pipeline (and hence every FileRecord
it writes) stores the bare hex digest with no algorithm tag, and the MCP
surface stores "sha256:" followed by exactly the pipeline's value, so the
two surfaces' checksums differ on every content. -/
theorem checksum_formats_per_surface (content : List Nat) :
    calculateChecksum content = hexEncodeToString (sha256 content) ∧
    mcpUploadChecksum content = "sha256:" ++ calculateChecksum content ∧
    calculateChecksum content ≠ mcpUploadChecksum content := by
  refine ⟨rfl, rfl, ?_⟩
  intro h
  have hlen : (calculateChecksum content).length =
      ("sha256:" ++ calculateChecksum content).length := by
    conv_lhs => rw [h]
    rfl
  rw [String.length_append] at hlen
  simp at hlen
  exact absurd hlen (by decide)

/-! ### The on-disk catalog format (internal/store types and manager.go)

The JSON document written by Save and read back by load, at the level of the
JSON value mirrored from the struct tags of internal/store (types):
stores → per-store objects (name, created_at, updated_at, files), files →
per-path records with the seven tagged fields.  Text rendering and parsing
of the value live in encoding/json at the boundary; Go sorts object keys on
marshal, which is immaterial to the map semantics and kept in catalog
order here.  The decoder mirrors json.Unmarshal restricted to the
encoder's image (Go is additionally lenient about absent fields). -/

mutual

inductive Json where
  | str (s : String)
  | num (n : Int)
  | obj (fields : JsonFields)

inductive JsonFields where
  | nil
  | cons (k : String) (v : Json) (rest : JsonFields)

end

def encodeMeta (m : FileMetadata) : Json :=
  .obj (.cons "local_path" (.str m.localPath)
       (.cons "remote_id" (.str m.remoteID)
       (.cons "remote_name" (.str m.remoteName)
       (.cons "checksum" (.str m.checksum)
       (.cons "size" (.num m.size)
       (.cons "uploaded_at" (.str (timeToString m.uploadedAt))
       (.cons "mime_type" (.str m.mimeType) .nil)))))))

def encodeFiles : List (String × FileMetadata) → JsonFields
  | [] => .nil
  | (k, m) :: rest => .cons k (encodeMeta m) (encodeFiles rest)

def encodeStore (st : Store) : Json :=
  .obj (.cons "name" (.str st.name)
       (.cons "created_at" (.str (timeToString st.createdAt))
       (.cons "updated_at" (.str (timeToString st.updatedAt))
       (.cons "files" (.obj (encodeFiles st.files)) .nil))))

def encodeStores : List (String × Store) → JsonFields
  | [] => .nil
  | (k, st) :: rest => .cons k (encodeStore st) (encodeStores rest)

def encodeStoreData (d : StoreData) : Json :=
  .obj (.cons "stores" (.obj (encodeStores d.stores)) .nil)

def fieldLookup : JsonFields → String → Option Json
  | .nil, _ => none
  | .cons k v rest, key => if k = key then some v else fieldLookup rest key

def asStr : Json → Option String
  | .str s => some s
  | _ => none

def asNum : Json → Option Int
  | .num n => some n
  | _ => none

def asObj : Json → Option JsonFields
  | .obj f => some f
  | _ => none

def decodeMeta (j : Json) : Option FileMetadata := do
  let fs ← asObj j
  let lp ← (fieldLookup fs "local_path").bind asStr
  let rid ← (fieldLookup fs "remote_id").bind asStr
  let rname ← (fieldLookup fs "remote_name").bind asStr
  let cs ← (fieldLookup fs "checksum").bind asStr
  let sz ← (fieldLookup fs "size").bind asNum
  let up ← ((fieldLookup fs "uploaded_at").bind asStr).bind parseTimeString
  let mt ← (fieldLookup fs "mime_type").bind asStr
  pure { localPath := lp, remoteID := rid, remoteName := rname, checksum := cs,
         size := sz, uploadedAt := up, mimeType := mt }

def decodeFiles : JsonFields → Option (List (String × FileMetadata))
  | .nil => some []
  | .cons k v rest => do
      let m ← decodeMeta v
      let ms ← decodeFiles rest
      pure ((k, m) :: ms)

def decodeStore (j : Json) : Option Store := do
  let fs ← asObj j
  let nm ← (fieldLookup fs "name").bind asStr
  let ca ← ((fieldLookup fs "created_at").bind asStr).bind parseTimeString
  let ua ← ((fieldLookup fs "updated_at").bind asStr).bind parseTimeString
  let filesJ ← (fieldLookup fs "files").bind asObj
  let files ← decodeFiles filesJ
  pure { name := nm, createdAt := ca, updatedAt := ua, files := files }

def decodeStores : JsonFields → Option (List (String × Store))
  | .nil => some []
  | .cons k v rest => do
      let st ← decodeStore v
      let sts ← decodeStores rest
      pure ((k, st) :: sts)

def decodeStoreData (j : Json) : Option StoreData := do
  let fs ← asObj j
  let storesJ ← (fieldLookup fs "stores").bind asObj
  let stores ← decodeStores storesJ
  pure { stores := stores }

theorem decodeMeta_encodeMeta (m : FileMetadata) :
    decodeMeta (encodeMeta m) = some m := by
  simp [encodeMeta, decodeMeta, asObj, asStr, asNum, fieldLookup,
        parseTimeString_timeToString]

theorem decodeFiles_encodeFiles (l : List (String × FileMetadata)) :
    decodeFiles (encodeFiles l) = some l := by
  induction l with
  | nil => rfl
  | cons kv rest ih =>
    obtain ⟨k, m⟩ := kv
    simp [encodeFiles, decodeFiles, decodeMeta_encodeMeta, ih]

theorem decodeStore_encodeStore (st : Store) :
    decodeStore (encodeStore st) = some st := by
  simp [encodeStore, decodeStore, asObj, asStr, fieldLookup,
        parseTimeString_timeToString, decodeFiles_encodeFiles]

theorem decodeStores_encodeStores (l : List (String × Store)) :
    decodeStores (encodeStores l) = some l := by
  induction l with
  | nil => rfl
  | cons kv rest ih =>
    obtain ⟨k, st⟩ := kv
    simp [encodeStores, decodeStores, decodeStore_encodeStore, ih]

/-- C8: serializing any catalog to the on-disk JSON shape and reloading it
restores the catalog exactly — identical store names, file keys and field
values, with timestamps preserved exactly (hence to at least second
precision). -/
theorem catalog_roundtrip (d : StoreData) :
    decodeStoreData (encodeStoreData d) = some d := by
  simp [encodeStoreData, decodeStoreData, asObj, fieldLookup,
        decodeStores_encodeStores]

/-! ### Save (internal/store/manager.go)

Save marshals the whole catalog and hands it to os.WriteFile, a direct
overwrite of the existing file (O_TRUNC then write) — not a
write-to-temp-then-rename.  The text rendering is compact (MarshalIndent
only adds insignificant whitespace); string escaping is elided, which is
exact on the concrete values used.  Because a direct overwrite has no
atomicity, every front portion of the new contents is an observable
intermediate state of the file. -/

def intToString (n : Int) : String :=
  if n < 0 then "-" ++ natToString n.natAbs else natToString n.natAbs

mutual

def renderJson : Json → String
  | .str s => "\"" ++ s ++ "\""
  | .num n => intToString n
  | .obj fs => "\x7b" ++ renderFields fs ++ "\x7d"

def renderFields : JsonFields → String
  | .nil => ""
  | .cons k v .nil => "\"" ++ k ++ "\":" ++ renderJson v
  | .cons k v (.cons k' v' rest) =>
      "\"" ++ k ++ "\":" ++ renderJson v ++ "," ++
        renderFields (.cons k' v' rest)

end

/-- The serialized catalog bytes Save writes. -/
def marshalStoreData (d : StoreData) : String :=
  renderJson (encodeStoreData d)

structure ManagerState where
  data : StoreData
  fileContents : String
deriving DecidableEq

/-- Save: marshal the in-memory catalog and overwrite the catalog file with
the result; the in-memory catalog is not mutated. -/
def save (st : ManagerState) : ManagerState :=
  { data := st.data, fileContents := marshalStoreData st.data }

/-- The file states observable while os.WriteFile replaces the contents:
truncation to empty followed by the written bytes arriving in order, i.e.
every take-front of the new contents. -/
def writeObservableStates (newContents : String) : List String :=
  (List.range (newContents.length + 1)).map (fun k => ⟨newContents.data.take k⟩)

def saveObservableStates (st : ManagerState) : List String :=
  writeObservableStates (marshalStoreData st.data)

/-- C5 (amended): Save is idempotent — it leaves the in-memory catalog
unchanged and a second Save of the unchanged catalog produces the identical
state and identical file contents — but it persists by direct os.WriteFile
overwrite rather than an atomic temp-file-and-rename, which the spec itself
flags as a hardening point. -/
theorem save_idempotent (st : ManagerState) :
    save (save st) = save st ∧ (save st).data = st.data ∧
    (save st).fileContents = marshalStoreData st.data := by
  simp [save]

/-- C5 counterexample: saving the empty catalog passes through an observable
on-disk state holding only the first three bytes of the serialized catalog —
a strict front portion — contradicting the claimed atomic replacement under
which the file never holds a partial serialization. -/
theorem save_partial_state_counterexample :
    "\x7b\"s" ∈ saveObservableStates { data := { stores := [] }, fileContents := "" } ∧
    "\x7b\"s" ≠ marshalStoreData { stores := [] } ∧
    "\x7b\"s" = ⟨(marshalStoreData { stores := [] }).data.take 3⟩ := by
  refine ⟨by decide, by decide, by decide⟩

/-! ### Fetch (cmd/fetch.go, runFetch's per-document loop)

Remote documents come from ListAllDocuments; each carries display name,
opaque name, createTime, mimeType, a sizeBytes string, and custom metadata.
The loop compares against a snapshot of the store's records built before
the loop (existingFiles) and upserts through the manager. -/

structure CustomMetadata where
  key : String
  stringValue : Option String
  numericValue : Option Int
deriving DecidableEq

structure FileSearchDocument where
  name : String
  displayName : String
  createTime : String
  mimeType : String
  sizeBytes : String
  customMetadata : List CustomMetadata
deriving DecidableEq

/-- Modelled from the spec: gemini.GetDocumentChecksum is called by
runFetch and the MCP upload handler but its definition is not among the
source files.  Per §4.3, custom metadata attached to an uploaded document
may carry the content checksum under key "checksum" as a string value, so
the extractor yields that string value when the entry is present and the
empty string otherwise (a remote that predates checksum metadata). -/
def getDocumentChecksum (doc : FileSearchDocument) : String :=
  match doc.customMetadata.find? (fun cm => cm.key = "checksum") with
  | some cm => cm.stringValue.getD ""
  | none => ""

/-- fmt.Sscanf of sizeBytes with a %d verb, leaving 0 when the field is
empty or unparsable. -/
def parseSizeBytes (s : String) : Int :=
  match parseNatString s with
  | some n => (n : Int)
  | none => 0

inductive FetchCategory where
  | added
  | updated
  | unchanged
  | skipped
  | notFound
  | needsUpload
deriving DecidableEq

/-- The record runFetch builds from a remote document before deciding what
to do with it. -/
def fetchMeta (doc : FileSearchDocument) (now : Nat) : FileMetadata :=
  { localPath := doc.displayName, remoteID := doc.name,
    remoteName := doc.displayName, checksum := getDocumentChecksum doc,
    size := parseSizeBytes doc.sizeBytes,
    uploadedAt := if doc.createTime ≠ "" then (parseTimeString doc.createTime).getD now
                  else now,
    mimeType := doc.mimeType }

/-- One iteration of runFetch's per-document loop: the decision table of the
fetch direction, committing the corresponding cache update and reporting the
tally category the document falls under. -/
def fetchDocStep (force : Bool) (disk : String → Option (List Nat)) (now : Nat)
    (resolvedName : String) (existingFiles : String → Option FileMetadata)
    (d : StoreData) (doc : FileSearchDocument) : FetchCategory × StoreData :=
  let remoteChecksum := getDocumentChecksum doc
  let meta := fetchMeta doc now
  match existingFiles doc.displayName with
  | some existing =>
      if existing.checksum = remoteChecksum ∧ existing.remoteID = doc.name then
        (FetchCategory.unchanged, d)
      else
        match disk doc.displayName with
        | none => (FetchCategory.notFound, Manager.addFile d resolvedName meta now)
        | some content =>
            let localChecksum := calculateChecksum content
            if remoteChecksum = "" then
              if existing.checksum = localChecksum then
                if existing.remoteID ≠ doc.name then
                  (FetchCategory.updated,
                   Manager.addFile d resolvedName { meta with checksum := localChecksum } now)
                else (FetchCategory.unchanged, d)
              else (FetchCategory.needsUpload, d)
            else if localChecksum = remoteChecksum then
              (FetchCategory.updated, Manager.addFile d resolvedName meta now)
            else if force then
              (FetchCategory.updated, Manager.addFile d resolvedName meta now)
            else (FetchCategory.skipped, d)
  | none =>
      match disk doc.displayName with
      | none => (FetchCategory.notFound, Manager.addFile d resolvedName meta now)
      | some content =>
          let localChecksum := calculateChecksum content
          if remoteChecksum = "" then
            (FetchCategory.added,
             Manager.addFile d resolvedName { meta with checksum := localChecksum } now)
          else if localChecksum = remoteChecksum then
            (FetchCategory.added, Manager.addFile d resolvedName meta now)
          else if force then
            (FetchCategory.updated, Manager.addFile d resolvedName meta now)
          else (FetchCategory.skipped, d)

/-- C3 (amended): for a remote document whose custom-metadata checksum is
non-empty and differs from the checksum of the disk file of the same display
name — provided the cached record does not already record exactly this
remote document (same checksum and same remote id, which fetch counts as
unchanged before ever reading the disk) — fetch without force leaves the
cache record for the path untouched and tallies the document as skipped,
while fetch with force overwrites the record with the remote document's
metadata (remote id, remote checksum, parsed size, timestamp) and tallies it
as updated. -/
theorem fetch_checksum_mismatch_policy (disk : String → Option (List Nat))
    (now : Nat) (resolvedName : String)
    (existingFiles : String → Option FileMetadata) (d : StoreData)
    (doc : FileSearchDocument) (content : List Nat)
    (hdisk : disk doc.displayName = some content)
    (hne : getDocumentChecksum doc ≠ "")
    (hmm : getDocumentChecksum doc ≠ calculateChecksum content)
    (hcache : ∀ ex, existingFiles doc.displayName = some ex →
        ¬(ex.checksum = getDocumentChecksum doc ∧ ex.remoteID = doc.name)) :
    fetchDocStep false disk now resolvedName existingFiles d doc =
      (FetchCategory.skipped, d) ∧
    fetchDocStep true disk now resolvedName existingFiles d doc =
      (FetchCategory.updated,
       Manager.addFile d resolvedName (fetchMeta doc now) now) ∧
    Manager.getFileByPath
        (fetchDocStep true disk now resolvedName existingFiles d doc).2
        resolvedName doc.displayName = some (fetchMeta doc now) := by
  have hloc : calculateChecksum content ≠ getDocumentChecksum doc :=
    fun h => hmm h.symm
  have hstep : ∀ force, fetchDocStep force disk now resolvedName existingFiles d doc =
      if force then
        (FetchCategory.updated, Manager.addFile d resolvedName (fetchMeta doc now) now)
      else (FetchCategory.skipped, d) := by
    intro force
    unfold fetchDocStep
    cases hex : existingFiles doc.displayName with
    | none =>
      dsimp only []
      rw [hdisk]
      dsimp only []
      rw [if_neg hne, if_neg hloc]
    | some ex =>
      dsimp only []
      rw [if_neg (hcache ex hex), hdisk]
      dsimp only []
      rw [if_neg hne, if_neg hloc]
  refine ⟨by simp [hstep false], by simp [hstep true], ?_⟩
  rw [hstep true]
  simp only [if_true]
  exact Manager.getFileByPath_addFile_self d resolvedName (fetchMeta doc now) now

def docCEx : FileSearchDocument :=
  { name := "fileSearchStores/st/documents/r1", displayName := "b.txt",
    createTime := "", mimeType := "text/plain", sizeBytes := "1",
    customMetadata := [{ key := "checksum",
                         stringValue := some (calculateChecksum [0]),
                         numericValue := none }] }

def exCEx : FileMetadata :=
  { localPath := "b.txt", remoteID := "fileSearchStores/st/documents/r1",
    remoteName := "b.txt", checksum := calculateChecksum [0], size := 1,
    uploadedAt := 4, mimeType := "text/plain" }

def dCEx : StoreData :=
  { stores := [("st", { name := "st", createdAt := 1, updatedAt := 2,
                        files := [("b.txt", exCEx)] })] }

def exFilesCEx : String → Option FileMetadata :=
  fun p => if p = "b.txt" then some exCEx else none

def diskCEx : String → Option (List Nat) :=
  fun p => if p = "b.txt" then some [1] else none

/-- C3 counterexample: a remote document with a non-empty metadata checksum
that differs from the disk file's checksum, but whose checksum and remote id
are already cached: fetch without force tallies it as unchanged, not
skipped, and fetch with force still leaves the record untouched instead of
overwriting it, refuting the claim as universally stated. -/
theorem fetch_mismatch_claim_counterexample :
    getDocumentChecksum docCEx ≠ "" ∧
    diskCEx docCEx.displayName = some [1] ∧
    getDocumentChecksum docCEx ≠ calculateChecksum [1] ∧
    fetchDocStep false diskCEx 9 "st" exFilesCEx dCEx docCEx =
      (FetchCategory.unchanged, dCEx) ∧
    (fetchDocStep false diskCEx 9 "st" exFilesCEx dCEx docCEx).1 ≠
      FetchCategory.skipped ∧
    fetchDocStep true diskCEx 9 "st" exFilesCEx dCEx docCEx =
      (FetchCategory.unchanged, dCEx) := by
  refine ⟨by decide, by decide, by decide, by decide, by decide, by decide⟩

def docFW : FileSearchDocument :=
  { name := "fileSearchStores/st/documents/r9", displayName := "c.txt",
    createTime := "", mimeType := "text/plain", sizeBytes := "2",
    customMetadata := [{ key := "checksum", stringValue := some "abc",
                         numericValue := none }] }

def diskFW : String → Option (List Nat) :=
  fun p => if p = "c.txt" then some [2] else none

theorem fetch_checksum_mismatch_policy_witness :
    fetchDocStep false diskFW 9 "st" (fun _ => none) { stores := [] } docFW =
      (FetchCategory.skipped, { stores := [] }) ∧
    fetchDocStep true diskFW 9 "st" (fun _ => none) { stores := [] } docFW =
      (FetchCategory.updated,
       Manager.addFile { stores := [] } "st" (fetchMeta docFW 9) 9) ∧
    Manager.getFileByPath
        (fetchDocStep true diskFW 9 "st" (fun _ => none) { stores := [] } docFW).2
        "st" "c.txt" = some (fetchMeta docFW 9) :=
  fetch_checksum_mismatch_policy diskFW 9 "st" (fun _ => none) { stores := [] }
    docFW [2] rfl (by decide) (by decide) (fun ex hex => by simp at hex)

/-! ### Clean (cmd/sync.go, runClean)

Records whose local path no longer exists on disk are deleted remotely via
DeleteDocument and then removed from the catalog; a failed remote delete
keeps the record and is tallied as failed.  The interactive y/N answer is
the confirm argument; the prompt is skipped when the force flag is set. -/

structure CleanResult where
  data : StoreData
  calls : List RemoteCall
  deleted : Nat
  failed : Nat
deriving DecidableEq

def cleanLoop (delOk : String → Bool) (storeName : String) (now : Nat) :
    List FileMetadata → StoreData → CleanResult
  | [], d => { data := d, calls := [], deleted := 0, failed := 0 }
  | f :: rest, d =>
      if delOk f.remoteID then
        let d' := (Manager.removeFile d storeName f.localPath now).1
        let r := cleanLoop delOk storeName now rest d'
        { data := r.data, calls := RemoteCall.deleteDocument f.remoteID :: r.calls,
          deleted := r.deleted + 1, failed := r.failed }
      else
        let r := cleanLoop delOk storeName now rest d
        { data := r.data, calls := RemoteCall.deleteDocument f.remoteID :: r.calls,
          deleted := r.deleted, failed := r.failed + 1 }

/-- runClean: fail when the store is unknown; otherwise collect the records
whose local path is gone, stop if there are none or confirmation is
refused, and delete the collected records remote-first. -/
def runCleanCore (delOk : String → Bool) (diskExists : String → Bool)
    (force confirm : Bool) (d : StoreData) (storeName : String) (now : Nat) :
    Option CleanResult :=
  match Manager.getStore d storeName with
  | none => none
  | some _ =>
      let localFiles := Manager.getAllFiles d storeName
      let toDelete := localFiles.filter (fun f => !diskExists f.localPath)
      if toDelete = [] then some { data := d, calls := [], deleted := 0, failed := 0 }
      else if !force && !confirm then
        some { data := d, calls := [], deleted := 0, failed := 0 }
      else some (cleanLoop delOk storeName now toDelete d)

theorem getFileByPath_removeFile_self (d : StoreData) (s p : String) (now : Nat) :
    Manager.getFileByPath (Manager.removeFile d s p now).1 s p = none := by
  unfold Manager.getFileByPath Manager.removeFile
  cases h : lookupA s d.stores with
  | none => simp [h]
  | some st =>
    cases h2 : lookupA p st.files with
    | none => simp [h, h2]
    | some m => simp [h, h2, lookupA_setA_self, lookupA_removeA_self]

theorem getFileByPath_removeFile_ne (d : StoreData) (s p : String) (now : Nat)
    (q : String) (hq : q ≠ p) :
    Manager.getFileByPath (Manager.removeFile d s p now).1 s q =
      Manager.getFileByPath d s q := by
  unfold Manager.getFileByPath Manager.removeFile
  cases h : lookupA s d.stores with
  | none => simp [h]
  | some st =>
    cases h2 : lookupA p st.files with
    | none => simp [h, h2]
    | some m => simp [h, h2, lookupA_setA_self, lookupA_removeA_ne _ _ _ hq]

/-- C7: in any store state where exactly one cached record's local path is
missing from disk and confirmation is given (or force is set), clean issues
exactly one remote delete call — for that record's remote id — and removes
exactly that record from the catalog: the record's path no longer resolves
while every other path resolves to exactly what it did before, and no other
remote document is touched (the call trace holds the single delete). -/
theorem clean_targets_only_missing (delOk diskExists : String → Bool)
    (force confirm : Bool) (d : StoreData) (s : String) (now : Nat)
    (st : Store) (f0 : FileMetadata)
    (hstore : Manager.getStore d s = some st)
    (hfilter : (Manager.getAllFiles d s).filter (fun f => !diskExists f.localPath) = [f0])
    (hdel : delOk f0.remoteID = true)
    (hgo : force || confirm = true) :
    runCleanCore delOk diskExists force confirm d s now =
      some { data := (Manager.removeFile d s f0.localPath now).1,
             calls := [RemoteCall.deleteDocument f0.remoteID],
             deleted := 1, failed := 0 } ∧
    Manager.getFileByPath (Manager.removeFile d s f0.localPath now).1 s f0.localPath =
      none ∧
    ∀ q, q ≠ f0.localPath →
      Manager.getFileByPath (Manager.removeFile d s f0.localPath now).1 s q =
        Manager.getFileByPath d s q := by
  refine ⟨?_, getFileByPath_removeFile_self d s f0.localPath now,
          fun q hq => getFileByPath_removeFile_ne d s f0.localPath now q hq⟩
  unfold runCleanCore
  rw [hstore]
  dsimp only []
  rw [hfilter]
  rw [if_neg (by simp)]
  have hconf : (!force && !confirm) = false := by
    cases force <;> cases confirm <;> simp_all
  rw [hconf]
  simp only [Bool.false_eq_true, if_false]
  unfold cleanLoop
  rw [hdel]
  simp [cleanLoop]

def mGone : FileMetadata :=
  { localPath := "gone.txt", remoteID := "fileSearchStores/st/documents/g1",
    remoteName := "gone.txt", checksum := "g", size := 1, uploadedAt := 1,
    mimeType := "text/plain" }

def mKeepA : FileMetadata :=
  { localPath := "keep1.txt", remoteID := "fileSearchStores/st/documents/k1",
    remoteName := "keep1.txt", checksum := "k1", size := 1, uploadedAt := 1,
    mimeType := "text/plain" }

def mKeepB : FileMetadata :=
  { localPath := "keep2.txt", remoteID := "fileSearchStores/st/documents/k2",
    remoteName := "keep2.txt", checksum := "k2", size := 1, uploadedAt := 1,
    mimeType := "text/plain" }

def stClean : Store :=
  { name := "st", createdAt := 1, updatedAt := 2,
    files := [("keep1.txt", mKeepA), ("gone.txt", mGone), ("keep2.txt", mKeepB)] }

def dClean : StoreData :=
  { stores := [("st", stClean)] }

def diskClean : String → Bool := fun p => p != "gone.txt"

theorem clean_targets_only_missing_witness :
    runCleanCore (fun _ => true) diskClean false true dClean "st" 8 =
      some { data := (Manager.removeFile dClean "st" "gone.txt" 8).1,
             calls := [RemoteCall.deleteDocument "fileSearchStores/st/documents/g1"],
             deleted := 1, failed := 0 } ∧
    Manager.getFileByPath (Manager.removeFile dClean "st" "gone.txt" 8).1 "st"
      "gone.txt" = none ∧
    Manager.getFileByPath (Manager.removeFile dClean "st" "gone.txt" 8).1 "st"
      "keep1.txt" = some mKeepA ∧
    Manager.getFileByPath (Manager.removeFile dClean "st" "gone.txt" 8).1 "st"
      "keep2.txt" = some mKeepB := by
  have h := clean_targets_only_missing (fun _ => true) diskClean false true dClean "st" 8
    stClean mGone (by decide) (by decide) (by decide) (by decide)
  refine ⟨h.1, h.2.1, ?_, ?_⟩
  · exact (h.2.2 "keep1.txt" (by decide)).trans (by decide)
  · exact (h.2.2 "keep2.txt" (by decide)).trans (by decide)

end Ragu
